import Mathlib

/-!
Verification of the NASDAQ financial-data analysis pipeline (src/Main.py).

The pipeline builds a tabular structure from the raw JSON payload, coerces
the report date column, projects nine columns, remaps country codes to
display names, renames the columns, filters by indicator and a company
denylist, then aggregates by date and smooths with a centered moving
average. Cells of the raw table are untyped scalars, embedded here as
Value. Dates are embedded as integers ordered chronologically; a failed
date parse is the missing marker none (NaT in the source).
-/

namespace NasdaqAnalysis

/-- A scalar cell of the raw data table: a string, a number, or a null. -/
inductive Value where
  | vStr : String → Value
  | vNum : ℚ → Value
  | vNull : Value
deriving DecidableEq

/-- Numeric reading of a cell, used by the aggregation stage (which the
source only runs on numeric amount cells). -/
def Value.asRat : Value → ℚ
  | .vNum q => q
  | _ => 0

/-- A normalized table row, the shape produced by process_data after the
column projection and rename (src/Main.py lines 123-152). report_date is
the coerced date: none is the missing marker NaT. -/
structure Row where
  report_id : Value
  report_date : Option Int
  report_type : Value
  company_name : Value
  country : Value
  region : Value
  indicator : Value
  statement : Value
  amount : Value
deriving DecidableEq

/-- The static country code map of _get_country_mapping
(src/Main.py lines 211-242). -/
def getCountryMapping : List (String × String) :=
  [("AUS", "Australia"),
   ("BEL", "Belgium"),
   ("BHS", "Bahamas"),
   ("BMU", "Bermuda"),
   ("BRA", "Brazil"),
   ("CAN", "Canada"),
   ("CHE", "Switzerland"),
   ("CHL", "Chile"),
   ("CYM", "Cayman Islands"),
   ("DEU", "Germany"),
   ("DNK", "Denmark"),
   ("ESP", "Spain"),
   ("FIN", "Finland"),
   ("FRA", "France"),
   ("GBR", "United Kingdom"),
   ("HKG", "Hong Kong"),
   ("IDN", "Indonesia"),
   ("IND", "India"),
   ("IRL", "Ireland"),
   ("ISR", "Israel"),
   ("ITA", "Italy"),
   ("JPN", "Japan"),
   ("KOR", "South Korea"),
   ("LBR", "Liberia"),
   ("PAN", "Panama"),
   ("USA", "United States"),
   ("VGB", "British Virgin Islands")]

/-- Country remap: the replace call on the country column
(src/Main.py line 138) maps a cell equal to a key of the map to the
mapped display name and leaves every other cell unchanged. -/
def remapCountry (c : String) : String :=
  match getCountryMapping.lookup c with
  | some n => n
  | none => c

/-- Lift of the country remap to an arbitrary cell: only string cells
can match a key of the map. -/
def remapCountryValue : Value → Value
  | .vStr c => .vStr (remapCountry c)
  | v => v

/-- The filter stage of process_data (src/Main.py lines 154-159): keep
rows whose indicator cell is the string EBITDA Margin, then drop rows
whose company_name cell is the string Immutep Ltd. -/
def filterRows (t : List Row) : List Row :=
  (t.filter (fun r => r.indicator == Value.vStr "EBITDA Margin")).filter
    (fun r => r.company_name != Value.vStr "Immutep Ltd")

/-- The raw dataset shape consumed by process_data: the datatable object
holds a columns list (names) and a data list of row value lists
(src/Main.py lines 111-112). -/
structure RawDataset where
  columns : List String
  data : List (List Value)

/-- The nine columns projected by process_data (src/Main.py
lines 123-133). -/
def necessaryColumns : List String :=
  ["reportid", "reportdate", "reporttype", "longname", "country",
   "region", "indicator", "statement", "amount"]

/-- The cell of a raw row at a named column: the row value at the
position of the name in the columns header, the positional alignment
pd.DataFrame uses (src/Main.py line 115). A position past the end of
the row reads as a null cell. -/
def cellValue (columns : List String) (row : List Value) (name : String) : Value :=
  row.getD (columns.indexOf name) Value.vNull

/-- One row after date coercion, projection, country remap and rename
(src/Main.py lines 118-152). The date parser is a parameter: the source
delegates it to pd.to_datetime with coercion of failures to NaT, which
the Option result embeds. -/
def normalizeRow (parse : Value → Option Int) (columns : List String)
    (row : List Value) : Row :=
  { report_id := cellValue columns row "reportid"
    report_date := parse (cellValue columns row "reportdate")
    report_type := cellValue columns row "reporttype"
    company_name := cellValue columns row "longname"
    country := remapCountryValue (cellValue columns row "country")
    region := cellValue columns row "region"
    indicator := cellValue columns row "indicator"
    statement := cellValue columns row "statement"
    amount := cellValue columns row "amount" }

/-- Extraction plus normalization (src/Main.py lines 109-152), before the
filter: when every necessary column is declared, each raw row becomes one
normalized row; when one is absent, the column access raises and the
surrounding handler turns the run into the failure result none. -/
def normalizeTable (parse : Value → Option Int) (raw : RawDataset) :
    Option (List Row) :=
  if necessaryColumns.all (fun c => raw.columns.contains c) then
    some (raw.data.map (normalizeRow parse raw.columns))
  else none

/-- process_data (src/Main.py lines 94-167): normalization followed by
the filter stage; none is the failure return. -/
def process_data (parse : Value → Option Int) (raw : RawDataset) :
    Option (List Row) :=
  (normalizeTable parse raw).map filterRows

/-- The stored processed_data attribute after a process_data call: it is
assigned only on the success path (src/Main.py line 162), so a failing
call leaves the previous value in place. -/
def processedDataAfter (parse : Value → Option Int) (raw : RawDataset)
    (prev : Option (List Row)) : Option (List Row) :=
  match process_data parse raw with
  | some t => some t
  | none => prev

/-- The distinct non-missing report dates of a table, in first-occurrence
order. Rows whose date is the missing marker are excluded, as pandas
groupby drops NaT keys. -/
def datesOf (t : List Row) : List Int :=
  (t.filterMap Row.report_date).dedup

/-- The group keys of the groupby on report_date (src/Main.py line 185):
the distinct dates in ascending chronological order (pandas groupby
sorts its keys). -/
def groupKeys (t : List Row) : List Int :=
  (datesOf t).insertionSort (· ≤ ·)

/-- The rows of a table carrying a given report date. -/
def rowsAt (t : List Row) (d : Int) : List Row :=
  t.filter (fun r => r.report_date == some d)

/-- The mean amount of the rows at a date, the per-group mean of the
groupby (src/Main.py line 185). -/
def meanAmount (t : List Row) (d : Int) : ℚ :=
  ((rowsAt t d).map (fun r => r.amount.asRat)).sum / ((rowsAt t d).length : ℚ)

/-- The aggregated time series time_trend (src/Main.py line 185): the
sorted date keys paired with the per-date mean amount. -/
def timeSeries (t : List Row) : List (Int × ℚ) :=
  (groupKeys t).map (fun d => (d, meanAmount t d))

/-- The centered rolling mean of window 3 (src/Main.py line 194 with the
default window_size 3): position i of the output is the mean of
positions i-1, i, i+1 of the input when all three exist, and the missing
value none (NaN in the source) otherwise. -/
def rollingMean3Center (xs : List ℚ) : List (Option ℚ) :=
  (List.range xs.length).map (fun i =>
    if 1 ≤ i ∧ i + 1 < xs.length then
      some ((xs.getD (i - 1) 0 + xs.getD i 0 + xs.getD (i + 1) 0) / 3)
    else none)

/-- The fields of the global config module (src/config.py, imported at
src/Main.py line 8). -/
structure Config where
  api_key : String
  username : String
  password : String

/-- The attribute state an analyzer instance holds after construction. -/
structure AnalyzerState where
  api_key : String
  api_url : String
  username : String
  password : String
  raw_data : Option RawDataset
  processed_data : Option (List Row)

/-- The constructor of FinancialDataAnalyzer (src/Main.py lines 17-32):
every credential attribute is read from the config module, and the three
constructor arguments are never used. -/
def analyzerInit (cfg : Config) (api_key username password : String) :
    AnalyzerState :=
  { api_key := cfg.api_key
    api_url := "https://data.nasdaq.com/api/v3/datatables/MER/F1"
    username := cfg.username
    password := cfg.password
    raw_data := none
    processed_data := none }

/-- Splits a character list at dash characters, accumulating the current
piece in reverse. -/
def splitDashAux : List Char → List Char → List (List Char)
  | [], acc => [acc.reverse]
  | c :: rest, acc =>
    if c = '-' then acc.reverse :: splitDashAux rest []
    else splitDashAux rest (c :: acc)

/-- Splits a character list at dash characters. -/
def splitDash (cs : List Char) : List (List Char) :=
  splitDashAux cs []

/-- Reads a non-empty all-digit character list as a number; anything
else is rejected. -/
def digitsToNat (cs : List Char) : Option Nat :=
  if cs.isEmpty then none
  else
    cs.foldl
      (fun acc c =>
        acc.bind (fun n => if c.isDigit then some (n * 10 + (c.toNat - 48)) else none))
      (some 0)

/-- Modelled from the spec: the date parse that process_data delegates
to the external library call pd.to_datetime (src/Main.py line 120) is
not code of this repository; the spec describes it as parsing reportdate
as a calendar date. This model accepts the ISO year-month-day shape on
string cells and rejects every other cell, returning an integer ordered
chronologically; it instantiates the parse parameter of the pipeline in
concrete witnesses. -/
def parseDateISO : Value → Option Int
  | Value.vStr s =>
    match (splitDash s.data).map digitsToNat with
    | [some y, some m, some d] =>
      if 1 ≤ m ∧ m ≤ 12 ∧ 1 ≤ d ∧ d ≤ 31 then
        some ((y : Int) * 10000 + (m : Int) * 100 + (d : Int))
      else none
    | _ => none
  | _ => none

/-- A sample row as produced by normalization: the Acme scenario row of
the spec. -/
def sampleRowAcme : Row :=
  { report_id := .vStr "R1"
    report_date := some 20200115
    report_type := .vStr "10-K"
    company_name := .vStr "Acme"
    country := .vStr "United States"
    region := .vStr "NA"
    indicator := .vStr "EBITDA Margin"
    statement := .vStr "IS"
    amount := .vNum 12 }

/-- A sample denylisted row: same indicator, company on the denylist. -/
def sampleRowImmutep : Row :=
  { report_id := .vStr "R2"
    report_date := some 20200115
    report_type := .vStr "10-K"
    company_name := .vStr "Immutep Ltd"
    country := .vStr "Australia"
    region := .vStr "OC"
    indicator := .vStr "EBITDA Margin"
    statement := .vStr "IS"
    amount := .vNum 3 }

/-- A sample raw dataset declaring exactly the nine necessary columns
with one well-formed row. -/
def sampleRaw : RawDataset :=
  { columns := necessaryColumns
    data := [[.vStr "R1", .vStr "2020-01-15", .vStr "10-K", .vStr "Acme",
              .vStr "USA", .vStr "NA", .vStr "EBITDA Margin", .vStr "IS",
              .vNum 12]] }

/-- The raw row of the malformed-date scenario. -/
def sampleBadDateRow : List Value :=
  [.vStr "R2", .vStr "not-a-date", .vStr "10-K", .vStr "Acme",
   .vStr "USA", .vStr "NA", .vStr "EBITDA Margin", .vStr "IS", .vNum 3]

/-- A raw dataset whose single row carries a malformed date string. -/
def sampleRawBadDate : RawDataset :=
  { columns := necessaryColumns
    data := [sampleBadDateRow] }

/-- A raw dataset missing the amount column. -/
def sampleRawMissingAmount : RawDataset :=
  { columns := ["reportid", "reportdate", "reporttype", "longname",
                "country", "region", "indicator", "statement"]
    data := [[.vStr "R1", .vStr "2020-01-15", .vStr "10-K", .vStr "Acme",
              .vStr "USA", .vStr "NA", .vStr "EBITDA Margin", .vStr "IS"]] }

/-- The two filter predicates fused into one pass, in the order the
second filter composes over the first. -/
theorem filterRows_eq_filter (t : List Row) :
    filterRows t = t.filter (fun r =>
      r.company_name != Value.vStr "Immutep Ltd"
        && (r.indicator == Value.vStr "EBITDA Margin")) := by
  simp [filterRows, List.filter_filter]

/-- A key paired with a value in an association list with pairwise
distinct keys looks up to that value. -/
theorem lookup_of_mem_nodup_keys (l : List (String × String))
    (hl : (l.map Prod.fst).Nodup) {c n : String} (h : (c, n) ∈ l) :
    l.lookup c = some n := by
  induction l with
  | nil => cases h
  | cons p tail ih =>
    obtain ⟨a, b⟩ := p
    rcases List.mem_cons.mp h with heq | htail
    · obtain ⟨rfl, rfl⟩ := Prod.mk.injEq .. ▸ heq
      simp [List.lookup]
    · by_cases hca : c = a
      · exfalso
        subst hca
        have : c ∈ tail.map Prod.fst :=
          List.mem_map.mpr ⟨(c, n), htail, rfl⟩
        exact (List.nodup_cons.mp hl).1 this
      · have : (c == a) = false := beq_eq_false_iff_ne.mpr hca
        simp [List.lookup, this]
        exact ih (List.nodup_cons.mp hl).2 htail

/-- A successful lookup in an association list comes from a pair of the
list. -/
theorem mem_of_lookup_eq_some (l : List (String × String)) {c n : String}
    (h : l.lookup c = some n) : (c, n) ∈ l := by
  induction l with
  | nil => simp [List.lookup] at h
  | cons p tail ih =>
    obtain ⟨a, b⟩ := p
    by_cases hca : c = a
    · subst hca
      simp [List.lookup] at h
      subst h
      exact List.mem_cons_self ..
    · have hbeq : (c == a) = false := beq_eq_false_iff_ne.mpr hca
      simp [List.lookup, hbeq] at h
      exact List.mem_cons_of_mem _ (ih h)

/-- Claim C1: on every normalized table the Filter keeps exactly the
rows whose indicator cell is the string EBITDA Margin and whose
company_name cell is not the string Immutep Ltd, and its output is a
sublist of the input, so the survivors keep their input relative
order. -/
theorem filter_keeps_exactly_ebitda_non_immutep (t : List Row) :
    (∀ r : Row, r ∈ filterRows t ↔
      r ∈ t ∧ r.indicator = Value.vStr "EBITDA Margin"
        ∧ r.company_name ≠ Value.vStr "Immutep Ltd")
    ∧ List.Sublist (filterRows t) t := by
  constructor
  · intro r
    rw [filterRows_eq_filter, List.mem_filter]
    simp only [Bool.and_eq_true, bne_iff_ne, beq_iff_eq, ne_eq]
    tauto
  · exact (List.filter_sublist _).trans (List.filter_sublist _)

/-- Concrete run of the Filter characterization: the Acme row survives
the filter over a two-row table and the output is a sublist of the
input. -/
theorem filter_keeps_exactly_witness :
    sampleRowAcme ∈ filterRows [sampleRowAcme, sampleRowImmutep]
    ∧ List.Sublist (filterRows [sampleRowAcme, sampleRowImmutep])
        [sampleRowAcme, sampleRowImmutep] :=
  ⟨((filter_keeps_exactly_ebitda_non_immutep
        [sampleRowAcme, sampleRowImmutep]).1 sampleRowAcme).mpr
      ⟨List.mem_cons_self .., by decide, by decide⟩,
   (filter_keeps_exactly_ebitda_non_immutep
      [sampleRowAcme, sampleRowImmutep]).2⟩

/-- Claim C9: every row of the Filter output is a row of the input, and
filtering the output again returns it unchanged. -/
theorem filter_subset_and_idempotent (t : List Row) :
    (∀ r ∈ filterRows t, r ∈ t)
    ∧ filterRows (filterRows t) = filterRows t := by
  constructor
  · intro r hr
    exact ((List.filter_sublist _).trans (List.filter_sublist _)).mem hr
  · rw [filterRows_eq_filter (filterRows t), filterRows_eq_filter t,
      List.filter_filter]
    refine List.filter_congr ?_
    intro a _
    cases a.company_name != Value.vStr "Immutep Ltd" <;>
      cases a.indicator == Value.vStr "EBITDA Margin" <;> rfl

/-- Concrete run of the Filter subset and idempotence properties on a
two-row table. -/
theorem filter_subset_and_idempotent_witness :
    sampleRowAcme ∈ [sampleRowAcme, sampleRowImmutep]
    ∧ filterRows (filterRows [sampleRowAcme, sampleRowImmutep])
        = filterRows [sampleRowAcme, sampleRowImmutep] := by
  have hmem : sampleRowAcme ∈ filterRows [sampleRowAcme, sampleRowImmutep] := by
    have h : filterRows [sampleRowAcme, sampleRowImmutep] = [sampleRowAcme] := by
      decide
    rw [h]
    exact List.mem_cons_self ..
  exact ⟨(filter_subset_and_idempotent [sampleRowAcme, sampleRowImmutep]).1
      sampleRowAcme hmem,
    (filter_subset_and_idempotent [sampleRowAcme, sampleRowImmutep]).2⟩

/-- Claim C10: the constructed analyzer state reads api_key, username
and password from the config module; the three constructor arguments
are ignored entirely, so any two argument triples construct the same
state. -/
theorem analyzerInit_ignores_arguments (cfg : Config)
    (a u p a2 u2 p2 : String) :
    (analyzerInit cfg a u p).api_key = cfg.api_key
    ∧ (analyzerInit cfg a u p).username = cfg.username
    ∧ (analyzerInit cfg a u p).password = cfg.password
    ∧ analyzerInit cfg a u p = analyzerInit cfg a2 u2 p2 :=
  ⟨rfl, rfl, rfl, rfl⟩

/-- Claim C6: normalization leaves the report_id and amount values of
every input row unchanged: the normalized fields are exactly the raw
cells at the reportid and amount columns. -/
theorem normalizeRow_preserves_amount_report_id
    (parse : Value → Option Int) (columns : List String)
    (row : List Value) :
    (normalizeRow parse columns row).report_id
        = cellValue columns row "reportid"
    ∧ (normalizeRow parse columns row).amount
        = cellValue columns row "amount" :=
  ⟨rfl, rfl⟩

/-- Claim C4: the country code map has exactly 27 entries with pairwise
distinct keys, and the remap is a total lookup-or-identity function: a
key maps to its display name, a non-key passes through unchanged, and a
non-empty code never remaps to the empty string. -/
theorem country_mapping_total_lookup_or_identity :
    getCountryMapping.length = 27
    ∧ (getCountryMapping.map Prod.fst).Nodup
    ∧ (∀ c n : String, (c, n) ∈ getCountryMapping → remapCountry c = n)
    ∧ (∀ c : String, c ∉ getCountryMapping.map Prod.fst → remapCountry c = c)
    ∧ (∀ c : String, c ≠ "" → remapCountry c ≠ "") := by
  refine ⟨rfl, by decide, ?_, ?_, ?_⟩
  · intro c n h
    unfold remapCountry
    rw [lookup_of_mem_nodup_keys getCountryMapping (by decide) h]
  · intro c hc
    unfold remapCountry
    cases hlook : getCountryMapping.lookup c with
    | none => rfl
    | some n =>
      exact absurd (List.mem_map.mpr
        ⟨(c, n), mem_of_lookup_eq_some _ hlook, rfl⟩) hc
  · intro c hc
    unfold remapCountry
    cases hlook : getCountryMapping.lookup c with
    | none => exact hc
    | some n =>
      have hmem := mem_of_lookup_eq_some _ hlook
      have hvals : ∀ p ∈ getCountryMapping, p.2 ≠ "" := by decide
      exact hvals (c, n) hmem

/-- Concrete runs of the country remap: a key maps to its display name,
a non-key passes through, and the result of a non-empty code is
non-empty. -/
theorem country_mapping_witness :
    remapCountry "AUS" = "Australia"
    ∧ remapCountry "ZZZ" = "ZZZ"
    ∧ remapCountry "ZZZ" ≠ "" :=
  ⟨country_mapping_total_lookup_or_identity.2.2.1 "AUS" "Australia" (by decide),
   country_mapping_total_lookup_or_identity.2.2.2.1 "ZZZ" (by decide),
   country_mapping_total_lookup_or_identity.2.2.2.2 "ZZZ" (by decide)⟩

/-- When every necessary column is declared, normalization runs and maps
every raw row. -/
theorem normalizeTable_eq_of_columns (parse : Value → Option Int)
    (raw : RawDataset) (h : ∀ c ∈ necessaryColumns, c ∈ raw.columns) :
    normalizeTable parse raw
      = some (raw.data.map (normalizeRow parse raw.columns)) := by
  have hall : necessaryColumns.all (fun c => raw.columns.contains c) = true := by
    rw [List.all_eq_true]
    intro c hc
    simpa using h c hc
  rw [normalizeTable, if_pos hall]

/-- Claim C5: when the declared columns contain the nine necessary
names, extraction plus normalization succeeds and yields exactly one
output row per raw data row: nothing is dropped before the Filter. -/
theorem normalizeTable_preserves_row_count (parse : Value → Option Int)
    (raw : RawDataset) (h : ∀ c ∈ necessaryColumns, c ∈ raw.columns) :
    ∃ t, normalizeTable parse raw = some t ∧ t.length = raw.data.length :=
  ⟨raw.data.map (normalizeRow parse raw.columns),
   normalizeTable_eq_of_columns parse raw h, List.length_map ..⟩

/-- Concrete run of the row-count preservation on a one-row raw
dataset. -/
theorem normalizeTable_row_count_witness :
    ∃ t, normalizeTable parseDateISO sampleRaw = some t
      ∧ t.length = sampleRaw.data.length :=
  normalizeTable_preserves_row_count parseDateISO sampleRaw (by decide)

/-- Claim C7: date coercion is total: when the reportdate cell of a raw
row does not parse, normalization still succeeds, the row is present at
its position in the output, and its report_date field is the missing
marker; the pipeline does not abort on a malformed date. -/
theorem date_coercion_total (parse : Value → Option Int) (raw : RawDataset)
    (h : ∀ c ∈ necessaryColumns, c ∈ raw.columns)
    (i : ℕ) (row : List Value) (hrow : raw.data[i]? = some row)
    (hfail : parse (cellValue raw.columns row "reportdate") = none) :
    ∃ t, normalizeTable parse raw = some t
      ∧ t[i]? = some (normalizeRow parse raw.columns row)
      ∧ (normalizeRow parse raw.columns row).report_date = none := by
  refine ⟨raw.data.map (normalizeRow parse raw.columns),
    normalizeTable_eq_of_columns parse raw h, ?_, hfail⟩
  rw [List.getElem?_map, hrow]
  rfl

/-- Concrete run of the date coercion on the malformed-date scenario
row: the string not-a-date fails to parse and the normalized row keeps
the missing marker. -/
theorem date_coercion_total_witness :
    ∃ t, normalizeTable parseDateISO sampleRawBadDate = some t
      ∧ t[0]? = some (normalizeRow parseDateISO sampleRawBadDate.columns
          sampleBadDateRow)
      ∧ (normalizeRow parseDateISO sampleRawBadDate.columns
          sampleBadDateRow).report_date = none :=
  date_coercion_total parseDateISO sampleRawBadDate (by decide) 0
    sampleBadDateRow rfl (by decide)

/-- Claim C8: when a necessary column is absent from the declared
columns, process_data returns the failure result none and the stored
processed data keeps its previous value: no partial output is
published. -/
theorem missing_column_fails_no_partial (parse : Value → Option Int)
    (raw : RawDataset) (prev : Option (List Row)) (c : String)
    (hc : c ∈ necessaryColumns) (habs : c ∉ raw.columns) :
    process_data parse raw = none
    ∧ processedDataAfter parse raw prev = prev := by
  have hguard : ¬ necessaryColumns.all
      (fun c => raw.columns.contains c) = true := by
    rw [List.all_eq_true]
    intro hall
    exact habs (by simpa using hall c hc)
  have hnone : normalizeTable parse raw = none := by
    rw [normalizeTable, if_neg hguard]
  constructor
  · rw [process_data, hnone]
    rfl
  · rw [processedDataAfter, process_data, hnone]
    rfl

/-- Concrete run of the schema failure: dropping the amount column makes
process_data fail and leaves the stored data untouched. -/
theorem missing_column_fails_witness :
    process_data parseDateISO sampleRawMissingAmount = none
    ∧ processedDataAfter parseDateISO sampleRawMissingAmount
        (some [sampleRowAcme]) = some [sampleRowAcme] :=
  missing_column_fails_no_partial parseDateISO sampleRawMissingAmount
    (some [sampleRowAcme]) "amount" (by decide) (by decide)

/-- The key column of the aggregated series is the sorted key list. -/
theorem timeSeries_keys (t : List Row) :
    (timeSeries t).map Prod.fst = groupKeys t := by
  rw [timeSeries, List.map_map]
  exact List.map_id _

/-- Claim C2: the aggregated time series is keyed by the distinct
non-missing report dates in strictly ascending chronological order, the
keys are exactly the dates carried by rows of the table, and the value
at each key times the number of rows at that date equals the sum of
their amounts, i.e. each value is the arithmetic mean of the amounts
sharing that date. -/
theorem timeSeries_mean_and_sorted (t : List Row) :
    ((timeSeries t).map Prod.fst).Sorted (· < ·)
    ∧ (∀ d : Int, d ∈ (timeSeries t).map Prod.fst
        ↔ ∃ r ∈ t, r.report_date = some d)
    ∧ (∀ p ∈ timeSeries t,
        rowsAt t p.1 ≠ []
        ∧ p.2 * ((rowsAt t p.1).length : ℚ)
            = ((rowsAt t p.1).map (fun r => r.amount.asRat)).sum) := by
  have hmemkeys : ∀ d : Int, d ∈ groupKeys t ↔ ∃ r ∈ t, r.report_date = some d := by
    intro d
    rw [groupKeys, (List.perm_insertionSort _ _).mem_iff, datesOf,
      List.mem_dedup, List.mem_filterMap]
  refine ⟨?_, ?_, ?_⟩
  · rw [timeSeries_keys]
    have hle : (groupKeys t).Sorted (· ≤ ·) := List.sorted_insertionSort _ _
    have hnodup : (groupKeys t).Nodup :=
      ((List.perm_insertionSort _ _).nodup_iff).mpr (List.nodup_dedup _)
    exact hle.lt_of_le hnodup
  · intro d
    rw [timeSeries_keys]
    exact hmemkeys d
  · intro p hp
    obtain ⟨d, hd, rfl⟩ := List.mem_map.mp hp
    obtain ⟨r, hr, hrd⟩ := (hmemkeys d).mp hd
    have hne : rowsAt t d ≠ [] := by
      intro hnil
      have hmem : r ∈ rowsAt t d := by
        rw [rowsAt]
        exact List.mem_filter.mpr ⟨hr, by rw [hrd]; exact beq_self_eq_true _⟩
      rw [hnil] at hmem
      cases hmem
    refine ⟨hne, ?_⟩
    have hlen : ((rowsAt t d).length : ℚ) ≠ 0 := by
      exact_mod_cast fun h0 => hne (List.length_eq_zero.mp h0)
    show meanAmount t d * _ = _
    rw [meanAmount, div_mul_cancel₀ _ hlen]

/-- Concrete run of the aggregation: on a one-row table the series has
the single date key and the value times the group size recovers the
amount sum; the mean itself evaluates to the row amount. -/
theorem timeSeries_mean_witness :
    rowsAt [sampleRowAcme] 20200115 ≠ []
    ∧ meanAmount [sampleRowAcme] 20200115
        * ((rowsAt [sampleRowAcme] 20200115).length : ℚ)
      = ((rowsAt [sampleRowAcme] 20200115).map (fun r => r.amount.asRat)).sum
    ∧ meanAmount [sampleRowAcme] 20200115 = 12 := by
  have hp : (20200115, meanAmount [sampleRowAcme] 20200115)
      ∈ timeSeries [sampleRowAcme] := by
    have hkeys : groupKeys [sampleRowAcme] = [20200115] := by decide
    rw [timeSeries, hkeys]
    exact List.mem_cons_self ..
  have h := (timeSeries_mean_and_sorted [sampleRowAcme]).2.2 _ hp
  exact ⟨h.1, h.2, by norm_num [meanAmount, rowsAt, sampleRowAcme, Value.asRat]⟩

/-- Claim C3: the centered window-3 rolling mean carries, at every
position with a neighbor on both sides, the mean of the value there and
its two neighbors, and carries the missing value at the first and at
the last position of a non-empty series. -/
theorem rollingMean3Center_interior_and_boundary (xs : List ℚ) :
    (∀ i : ℕ, 1 ≤ i → i + 1 < xs.length →
        (rollingMean3Center xs)[i]? =
          some (some ((xs.getD (i - 1) 0 + xs.getD i 0 + xs.getD (i + 1) 0) / 3)))
    ∧ (xs ≠ [] → (rollingMean3Center xs)[0]? = some none
        ∧ (rollingMean3Center xs)[xs.length - 1]? = some none) := by
  constructor
  · intro i h1 h2
    have hilt : i < xs.length := Nat.lt_of_succ_lt h2
    rw [rollingMean3Center, List.getElem?_map, List.getElem?_range hilt]
    have hcond : 1 ≤ i ∧ i + 1 < xs.length := ⟨h1, h2⟩
    simp [if_pos hcond]
  · intro hne
    have hpos : 0 < xs.length := List.length_pos.mpr hne
    constructor
    · rw [rollingMean3Center, List.getElem?_map, List.getElem?_range hpos]
      simp
    · have hlt : xs.length - 1 < xs.length := Nat.sub_lt hpos Nat.one_pos
      rw [rollingMean3Center, List.getElem?_map, List.getElem?_range hlt]
      have hsucc : xs.length - 1 + 1 = xs.length :=
        Nat.succ_pred_eq_of_pos hpos
      have hcond : ¬ (1 ≤ xs.length - 1 ∧ xs.length - 1 + 1 < xs.length) := by
        rintro ⟨-, hcon⟩
        rw [hsucc] at hcon
        exact lt_irrefl _ hcon
      simp [if_neg hcond]

/-- Concrete run of the smoothing on a four-point series: the two
interior positions carry window means, the two boundary positions carry
the missing value. -/
theorem rollingMean3Center_witness :
    (rollingMean3Center [1, 2, 3, 4])[1]? = some (some 2)
    ∧ (rollingMean3Center [1, 2, 3, 4])[0]? = some none
    ∧ (rollingMean3Center [1, 2, 3, 4])[3]? = some none := by
  have hi := (rollingMean3Center_interior_and_boundary [1, 2, 3, 4]).1 1
    (by decide) (by decide)
  have hb := (rollingMean3Center_interior_and_boundary [1, 2, 3, 4]).2
    (by decide)
  refine ⟨?_, hb.1, hb.2⟩
  rw [hi]
  norm_num [List.getD]

end NasdaqAnalysis
